import Mathlib

/-!
Verification of the VectorDrawable-to-SVG converter

A shallow embedding of `VectorDrawable2Svg.py` together with theorems about
its colour-resolution function (`get_color`), its path-collection function
(`convert_paths`) and its document-level conversion
(`convert_vector_drawable_xml`).

Modelling conventions:

* Python strings are Lean `String`s; slicing, `startswith`, `in` and
  `split` are modelled by the `py*`/`strContains`/`splitSecond` helpers
  below, which operate on the character list exactly as Python operates on
  its character sequence.
* The colour dictionary is an association list; `dict.get` is modelled by
  `lookupMap` (first matching key).
* Exceptions are modelled with `Except ConvError`.  The source raises three
  kinds of fatal errors: a missing required attribute or missing `vector`
  element (`malformedInput`), the `raise` on a colour value that neither
  starts with `#` nor contains `@color/` (`malformedColorValue` — in the
  Python source this is `raise '…'`, a statement that itself raises at run
  time, so the conversion aborts either way), and the explicit
  `raise Exception('Depth is >= 3')` (`referenceDepthExceeded`).
* `get_color` recurses with `depth + 1` and aborts when `depth >= 3`; the
  embedding therefore recurses structurally on the fuel `3 - depth`, which
  is zero exactly when `depth >= 3` and decreases by one exactly when the
  Python recursion increases `depth` by one.  `get_color_ref_step` below
  re-establishes the original recursion equation.
* XML DOM nodes are rose trees.  Python compares DOM nodes by object
  identity (`vd_path.parentNode == vd_container`); every modelled node
  therefore carries a numeric id, and a document is well formed
  (`idsNodup`) when all ids are distinct, mirroring distinct object
  identities of distinct nodes of a parsed document.
-/

/-! ## Python string primitives -/

/-- Python `s.startswith(pre)`. -/
def pyStartsWith (s pre : String) : Bool :=
  pre.toList.isPrefixOf s.toList

/-- Python slice `s[a:b]` (for `0 ≤ a ≤ b`): characters `a, …, b-1`. -/
def pySlice (s : String) (a b : Nat) : String :=
  String.mk ((s.toList.drop a).take (b - a))

/-- Index of the leftmost occurrence of `pat` in `s`, if any. -/
def subIdx (pat s : List Char) : Option Nat :=
  (List.range (s.length + 1)).find? (fun i => pat.isPrefixOf (s.drop i))

/-- Python `pat in s` (substring containment). -/
def strContains (s pat : String) : Bool :=
  (subIdx pat.toList s.toList).isSome

/-- Python `s.split(pat)[1]`: the segment between the leftmost occurrence of
`pat` and the next non-overlapping occurrence (or the end of the string).
Only used by the source under the guard `pat in s`. -/
def splitSecond (s pat : String) : String :=
  match subIdx pat.toList s.toList with
  | none => s
  | some i =>
    let rest := s.toList.drop (i + pat.toList.length)
    match subIdx pat.toList rest with
    | none => String.mk rest
    | some j => String.mk (rest.take j)

/-! ## Colour resolution (`get_color`) -/

/-- The three kinds of fatal errors the converter can raise (spec §7). -/
inductive ConvError : Type where
  | malformedInput
  | malformedColorValue
  | referenceDepthExceeded
deriving DecidableEq

/-- The colour table: name-to-value association, `dict.get` is first match. -/
def ColorMap : Type := List (String × String)

/-- Python `color_map.get(name)`. -/
def lookupMap (cm : ColorMap) (name : String) : Option String :=
  (List.find? (fun kv => kv.1 == name) cm).map Prod.snd

/-- The indirect-reference marker `'@color/'` of `get_color`. -/
def atColorStr : String := "@color/"

/-- Body of `get_color`, recursing structurally on the fuel `3 - depth`
(zero exactly when the Python guard `depth >= 3` fires; the branch order —
`#`-literal handling first, then the depth guard, then the `@color/`
containment check, then lookup — is the order of the Python source). -/
def get_color_go (cm : ColorMap) : Nat → String → Except ConvError String
  | fuel, value =>
    if pyStartsWith value "#" then
      if value.length = 9 then
        Except.ok ("#" ++ pySlice value 3 9 ++ pySlice value 1 3)
      else
        Except.ok value
    else
      match fuel with
      | 0 => Except.error ConvError.referenceDepthExceeded
      | fuel' + 1 =>
        if strContains value atColorStr then
          match lookupMap cm (splitSecond value atColorStr) with
          | none => Except.ok value
          | some color =>
            if color == "" then Except.ok value
            else if strContains color atColorStr then get_color_go cm fuel' color
            else Except.ok color
        else
          Except.error ConvError.malformedColorValue

/-- `get_color(color_map, value, depth)` of the source.  The Python `if not
color` test is true for an absent key (`None`) and for the empty string, so
the embedding distinguishes `none` from `some ""` and treats both as
"return the original value". -/
def get_color (cm : ColorMap) (value : String) (depth : Nat) : Except ConvError String :=
  get_color_go cm (3 - depth) value

/-! ## Source document trees -/

/-- A parsed XML element: identity, tag name, attributes, children.  The id
models Python object identity of DOM nodes. -/
inductive VNode : Type where
  | mk : Nat → String → List (String × String) → List VNode → VNode

/-- The node's identity. -/
def VNode.nid : VNode → Nat
  | .mk i _ _ _ => i

/-- The node's tag name. -/
def VNode.tag : VNode → String
  | .mk _ t _ _ => t

/-- The node's attribute list. -/
def VNode.attrs : VNode → List (String × String)
  | .mk _ _ a _ => a

/-- The node's child list. -/
def VNode.children : VNode → List VNode
  | .mk _ _ _ cs => cs

/-- All strict descendants of a node paired with their parent, in document
(pre-)order of the descendant — the traversal `getElementsByTagName`
performs, keeping the `parentNode` of every visited element. -/
def descWP : VNode → List (VNode × VNode)
  | .mk i t a cs => go (.mk i t a cs) cs
where
  go (parent : VNode) : List VNode → List (VNode × VNode)
    | [] => []
    | c :: rest => (parent, c) :: (descWP c ++ go parent rest)

/-- All nodes of the document rooted at `doc`, in document order (the root
element itself included, as for `Document.getElementsByTagName`). -/
def nodesOf (doc : VNode) : List VNode :=
  doc :: (descWP doc).map Prod.snd

/-- `vd_xml.getElementsByTagName('vector')[0]`: the first `vector` element
in document order (`none` models the `IndexError` when there is none). -/
def firstVector (doc : VNode) : Option VNode :=
  (nodesOf doc).find? (fun n => n.tag == "vector")

/-- `vd_xml.getElementsByTagName('group')`: every `group` element of the
whole document, in document order, independent of nesting depth. -/
def groupsOf (doc : VNode) : List VNode :=
  (nodesOf doc).filter (fun n => n.tag == "group")

/-- Well-formedness of a parsed document: all node identities distinct. -/
def idsNodup (doc : VNode) : Prop :=
  ((nodesOf doc).map VNode.nid).Nodup

instance (doc : VNode) : Decidable (idsNodup doc) :=
  inferInstanceAs (Decidable (((nodesOf doc).map VNode.nid).Nodup))

/-- `node.attributes[name].value` guarded by `hasAttribute`. -/
def getAttr? (n : VNode) (name : String) : Option String :=
  (List.find? (fun kv => kv.1 == name) n.attrs).map Prod.snd

/-- `node.attributes[name].value` without a guard: a missing attribute is a
`KeyError`, i.e. malformed input. -/
def getAttrE (n : VNode) (name : String) : Except ConvError String :=
  match getAttr? n name with
  | some v => Except.ok v
  | none => Except.error ConvError.malformedInput

/-! ## Output (SVG) trees -/

/-- An output XML element: tag name, attributes, children. -/
inductive SNode : Type where
  | mk : String → List (String × String) → List SNode → SNode

/-- The output node's tag name. -/
def SNode.tag : SNode → String
  | .mk t _ _ => t

/-- The output node's attribute list. -/
def SNode.attrs : SNode → List (String × String)
  | .mk _ a _ => a

/-- The output node's child list. -/
def SNode.children : SNode → List SNode
  | .mk _ _ cs => cs

/-- Attribute lookup on an output node. -/
def sGetAttr? (n : SNode) (name : String) : Option String :=
  (List.find? (fun kv => kv.1 == name) n.attrs).map Prod.snd

/-- All nodes of an output tree, in document order, the root included. -/
def SNode.allNodes : SNode → List SNode
  | .mk t a cs => .mk t a cs :: go cs
where
  go : List SNode → List SNode
    | [] => []
    | c :: rest => SNode.allNodes c ++ go rest

/-- Every `path` element of an output tree, in document order. -/
def svgPathsOf (s : SNode) : List SNode :=
  s.allNodes.filter (fun n => n.tag == "path")

/-! ## The structural mapper -/

/-- Conditional attribute copy: `if hasAttribute(src): dst = value`. -/
def optAttrL (p : VNode) (src dst : String) : List (String × String) :=
  match getAttr? p src with
  | some v => [(dst, v)]
  | none => []

/-- The body of the `convert_paths` loop for one accepted path node:
`d` from `android:pathData` (required), `fill` from `android:fillColor`
resolved through the colour table (default `none`), the four optional
stroke presentation attributes copied verbatim, and `stroke` from
`android:strokeColor` resolved through the colour table. -/
def convert_path_elem (cm : ColorMap) (vdp : VNode) : Except ConvError SNode :=
  match getAttrE vdp "android:pathData" with
  | Except.error e => Except.error e
  | Except.ok d =>
    match (match getAttr? vdp "android:fillColor" with
           | some fc => get_color cm fc 1
           | none => Except.ok "none") with
    | Except.error e => Except.error e
    | Except.ok fill =>
      match (match getAttr? vdp "android:strokeColor" with
             | some sc =>
               match get_color cm sc 1 with
               | Except.error e => Except.error e
               | Except.ok c => Except.ok [("stroke", c)]
             | none => Except.ok []) with
      | Except.error e => Except.error e
      | Except.ok strokeA =>
        Except.ok (SNode.mk "path"
          ([("d", d), ("fill", fill)]
            ++ optAttrL vdp "android:strokeLineJoin" "stroke-linejoin"
            ++ optAttrL vdp "android:strokeLineCap" "stroke-linecap"
            ++ optAttrL vdp "android:strokeMiterLimit" "stroke-miterlimit"
            ++ optAttrL vdp "android:strokeWidth" "stroke-width"
            ++ strokeA) [])

/-- The paths `convert_paths` accepts from `vd_container`: every descendant
with tag `path` (that is `container.getElementsByTagName('path')`) whose
`parentNode` is the container itself (the identity test of line 70 of the
source). -/
def selectedPaths (c : VNode) : List VNode :=
  ((descWP c).filter (fun pc => pc.2.tag == "path" && pc.1.nid == c.nid)).map Prod.snd

/-- `convert_paths(vd_container, …)`: convert the accepted paths in
document order; a skipped path contributes nothing and is never examined. -/
def convert_paths (cm : ColorMap) (c : VNode) : Except ConvError (List SNode) :=
  (selectedPaths c).mapM (convert_path_elem cm)

/-- Python truthiness of `translate_x`/`translate_y`: the initial `0` is
falsy, a declared attribute value is truthy unless it is the empty
string. -/
def pyTruthy : Option String → Bool
  | none => false
  | some s => s != ""

/-- The attribute list of an output group: `transform="translate(X,Y)"`
from the raw strings, `0` substituted for an absent coordinate, present
exactly when `translate_x or translate_y` is truthy. -/
def groupAttrs (g : VNode) : List (String × String) :=
  if pyTruthy (getAttr? g "android:translateX")
      || pyTruthy (getAttr? g "android:translateY") then
    [("transform", "translate(" ++ (getAttr? g "android:translateX").getD "0"
        ++ "," ++ (getAttr? g "android:translateY").getD "0" ++ ")")]
  else []

/-- One iteration of the group loop of `convert_vector_drawable_xml`:
create the `g` element, set the optional transform, convert the group's
direct paths into it. -/
def convert_group (cm : ColorMap) (g : VNode) : Except ConvError SNode :=
  match convert_paths cm g with
  | Except.error e => Except.error e
  | Except.ok ps => Except.ok (SNode.mk "g" (groupAttrs g) ps)

/-- The attributes of the output root: the namespace, then (unless
`viewbox_only`) the verbatim width and height, then the viewBox string
`"0 0 {w} {h}"`. -/
def svgRootAttrs (viewbox_only : Bool) (w h : String) : List (String × String) :=
  ("xmlns", "http://www.w3.org/2000/svg")
    :: ((if viewbox_only then [] else [("width", w), ("height", h)])
      ++ [("viewBox", "0 0 " ++ w ++ " " ++ h)])

/-- `convert_vector_drawable_xml(vd_xml, color_map, viewbox_only)`: locate
the first `vector` element, read the required viewport attributes, process
every group of the document in document order, then the root-level paths,
and assemble the output root. -/
def convert_vector_drawable_xml (doc : VNode) (cm : ColorMap) (viewbox_only : Bool) :
    Except ConvError SNode :=
  match firstVector doc with
  | none => Except.error ConvError.malformedInput
  | some vd_node =>
    match getAttrE vd_node "android:viewportWidth" with
    | Except.error e => Except.error e
    | Except.ok w =>
      match getAttrE vd_node "android:viewportHeight" with
      | Except.error e => Except.error e
      | Except.ok h =>
        match (groupsOf doc).mapM (convert_group cm) with
        | Except.error e => Except.error e
        | Except.ok gs =>
          match convert_paths cm vd_node with
          | Except.error e => Except.error e
          | Except.ok ps =>
            Except.ok (SNode.mk "svg" (svgRootAttrs viewbox_only w h) (gs ++ ps))

/-- The source path nodes the conversion emits, in output order: for every
group of the document (document order) its accepted paths, then the
accepted paths of the `vector` root — the concatenation of the path lists
the `convert_paths` calls of `convert_vector_drawable_xml` accept. -/
def convertedSourcePaths (doc : VNode) : List VNode :=
  match firstVector doc with
  | none => []
  | some vd => (groupsOf doc).flatMap selectedPaths ++ selectedPaths vd

/-! ## A concrete example document

The nesting scenario of the specification: one path directly under the
root, one path directly under a group, and one path nested two levels deep
(a path under a path). -/

/-- The deeply nested path (immediate parent is a path, not a group). -/
def exPathNested : VNode := VNode.mk 3 "path" [("android:pathData", "M3 3")] []

/-- The path directly under the group, itself carrying the nested path. -/
def exPathUnderGroup : VNode :=
  VNode.mk 2 "path" [("android:pathData", "M2 2")] [exPathNested]

/-- The group of the example document. -/
def exGroup : VNode := VNode.mk 1 "group" [] [exPathUnderGroup]

/-- The path directly under the root. -/
def exPathRoot : VNode := VNode.mk 4 "path" [("android:pathData", "M4 4")] []

/-- The example document. -/
def exDoc : VNode :=
  VNode.mk 0 "vector"
    [("android:viewportWidth", "24"), ("android:viewportHeight", "24")]
    [exGroup, exPathRoot]

/-- The output of converting the example document: the group's direct path,
then — after the group — the root-level path; the nested path is absent. -/
def exOut : SNode :=
  SNode.mk "svg"
    [("xmlns", "http://www.w3.org/2000/svg"), ("width", "24"), ("height", "24"),
     ("viewBox", "0 0 24 24")]
    [SNode.mk "g" [] [SNode.mk "path" [("d", "M2 2"), ("fill", "none")] []],
     SNode.mk "path" [("d", "M4 4"), ("fill", "none")] []]

/-! ## Lemmas about `get_color` -/

/-- A value beginning with `#` is handled by the first branch of
`get_color`, at any depth: length 9 moves the alpha pair to the end,
anything else passes through. -/
theorem get_color_hash (cm : ColorMap) (v : String) (d : Nat)
    (h : pyStartsWith v "#" = true) :
    get_color cm v d =
      Except.ok (if v.length = 9 then "#" ++ pySlice v 3 9 ++ pySlice v 1 3 else v) := by
  unfold get_color get_color_go
  rw [h]
  simp only [if_true]
  split <;> rfl

/-- The `depth >= 3` guard fires for every non-`#` value, before the
`@color/` containment test and before any table lookup. -/
theorem get_color_depth_guard (cm : ColorMap) (v : String) (d : Nat)
    (h : pyStartsWith v "#" = false) (hd : 3 ≤ d) :
    get_color cm v d = Except.error ConvError.referenceDepthExceeded := by
  unfold get_color get_color_go
  rw [h, Nat.sub_eq_zero_of_le hd]
  rfl

/-- A non-`#` value below the depth bound that does not contain `@color/`
raises the malformed-colour error. -/
theorem get_color_malformed (cm : ColorMap) (v : String) (d : Nat)
    (h : pyStartsWith v "#" = false) (hd : d < 3)
    (hc : strContains v atColorStr = false) :
    get_color cm v d = Except.error ConvError.malformedColorValue := by
  unfold get_color get_color_go
  rw [h]
  have hf : 3 - d = (3 - (d + 1)) + 1 := by omega
  rw [hf, hc]
  simp

/-- The recursion equation of the Python source, re-established for the
fuel-based embedding: below the depth bound, a `@color/`-containing value
is resolved by looking up the split-off name, returning the value itself
when the lookup is falsy, recursing at `depth + 1` when the result again
contains `@color/`, and returning the result otherwise. -/
theorem get_color_ref_step (cm : ColorMap) (v : String) (d : Nat)
    (h : pyStartsWith v "#" = false) (hd : d < 3)
    (hc : strContains v atColorStr = true) :
    get_color cm v d =
      match lookupMap cm (splitSecond v atColorStr) with
      | none => Except.ok v
      | some color =>
        if color == "" then Except.ok v
        else if strContains color atColorStr then get_color cm color (d + 1)
        else Except.ok color := by
  have hf : 3 - d = (3 - (d + 1)) + 1 := by omega
  show get_color_go cm (3 - d) v = _
  rw [hf]
  conv_lhs => unfold get_color_go
  rw [h, hc]
  rfl

/-- Step lemma: unknown name, the reference passes through. -/
theorem get_color_step_none (cm : ColorMap) (v : String) (d : Nat)
    (h : pyStartsWith v "#" = false) (hd : d < 3)
    (hc : strContains v atColorStr = true)
    (hl : lookupMap cm (splitSecond v atColorStr) = none) :
    get_color cm v d = Except.ok v := by
  rw [get_color_ref_step cm v d h hd hc, hl]

/-- Step lemma: the name maps to the empty string, the reference passes
through exactly as for an unknown name. -/
theorem get_color_step_empty (cm : ColorMap) (v : String) (d : Nat)
    (h : pyStartsWith v "#" = false) (hd : d < 3)
    (hc : strContains v atColorStr = true)
    (hl : lookupMap cm (splitSecond v atColorStr) = some "") :
    get_color cm v d = Except.ok v := by
  rw [get_color_ref_step cm v d h hd hc, hl]
  rfl

/-- Step lemma: the name maps to another reference, resolution recurses
with `depth + 1`. -/
theorem get_color_step_ref (cm : ColorMap) (v color : String) (d : Nat)
    (h : pyStartsWith v "#" = false) (hd : d < 3)
    (hc : strContains v atColorStr = true)
    (hl : lookupMap cm (splitSecond v atColorStr) = some color)
    (hne : (color == "") = false)
    (hcc : strContains color atColorStr = true) :
    get_color cm v d = get_color cm color (d + 1) := by
  rw [get_color_ref_step cm v d h hd hc, hl]
  simp only [hne, hcc, if_true, if_false]
  rfl

/-- Step lemma: the name maps to a non-reference value, which is returned
directly. -/
theorem get_color_step_value (cm : ColorMap) (v color : String) (d : Nat)
    (h : pyStartsWith v "#" = false) (hd : d < 3)
    (hc : strContains v atColorStr = true)
    (hl : lookupMap cm (splitSecond v atColorStr) = some color)
    (hne : (color == "") = false)
    (hcc : strContains color atColorStr = false) :
    get_color cm v d = Except.ok color := by
  rw [get_color_ref_step cm v d h hd hc, hl]
  simp only [hne, hcc, if_false]
  rfl

/-! ## Lemmas about `@color/name` strings -/

/-- A `@color/`-prefixed string does not start with `#`. -/
theorem pyStartsWith_atColor_hash (name : String) :
    pyStartsWith ("@color/" ++ name) "#" = false := by
  obtain ⟨l⟩ := name
  rfl

/-- If `pat` is a prefix of `s`, its leftmost occurrence is at index 0. -/
theorem subIdx_of_isPrefixOf (pat s : List Char) (h : pat.isPrefixOf s = true) :
    subIdx pat s = some 0 := by
  unfold subIdx
  rw [List.range_succ_eq_map]
  rw [List.find?_cons_of_pos]
  rw [List.drop_zero]
  exact h

/-- A list is a prefix of itself followed by anything. -/
theorem isPrefixOf_append_self (l1 l2 : List Char) :
    l1.isPrefixOf (l1 ++ l2) = true := by
  induction l1 with
  | nil => simp
  | cons c cs ih => simp [List.isPrefixOf, ih]

/-- The marker occurs (at index 0) in `"@color/" ++ name`. -/
theorem subIdx_atColor_append (name : String) :
    subIdx atColorStr.toList ("@color/" ++ name).toList = some 0 := by
  apply subIdx_of_isPrefixOf
  have h : ("@color/" ++ name).toList = atColorStr.toList ++ name.toList := by
    obtain ⟨l⟩ := name
    rfl
  rw [h]
  exact isPrefixOf_append_self _ _

/-- A `@color/`-prefixed string contains the marker. -/
theorem strContains_atColor_append (name : String) :
    strContains ("@color/" ++ name) atColorStr = true := by
  unfold strContains
  rw [subIdx_atColor_append]
  rfl

/-- Splitting `"@color/" ++ name` on the marker yields `name`, provided
`name` itself does not contain the marker. -/
theorem splitSecond_atColor_append (name : String)
    (h : strContains name atColorStr = false) :
    splitSecond ("@color/" ++ name) atColorStr = name := by
  have hnone : subIdx atColorStr.toList name.toList = none := by
    unfold strContains at h
    exact Option.eq_none_of_isNone (by simp [Bool.not_eq_true, h] at h ⊢; exact h)
  have hdrop : ("@color/" ++ name).toList.drop (0 + atColorStr.toList.length) = name.toList := by
    show (("@color/" ++ name).data).drop (0 + atColorStr.data.length) = name.data
    rw [String.data_append, Nat.zero_add]
    exact List.drop_left _ _
  unfold splitSecond
  rw [subIdx_atColor_append]
  show (match subIdx atColorStr.toList
            (("@color/" ++ name).toList.drop (0 + atColorStr.toList.length)) with
        | none => String.mk (("@color/" ++ name).toList.drop (0 + atColorStr.toList.length))
        | some j =>
          String.mk ((("@color/" ++ name).toList.drop (0 + atColorStr.toList.length)).take j))
      = name
  rw [hdrop, hnone]
  obtain ⟨l⟩ := name
  rfl

/-! ## Claims about colour resolution -/

/-- Claim C2: for every colour table and every value beginning with `#`,
resolution at any depth returns, for length 9 (`#` + 8 hex digits, alpha
first), `#` + characters `[3:9]` + characters `[1:3]` (the leading alpha
pair moved to the end) independently of the table's contents, and returns
every other `#`-value unchanged. -/
theorem c2_hash_alpha_swap (cm : ColorMap) (v : String) (d : Nat)
    (hv : pyStartsWith v "#" = true) :
    get_color cm v d =
      Except.ok (if v.length = 9 then "#" ++ pySlice v 3 9 ++ pySlice v 1 3 else v) :=
  get_color_hash cm v d hv

/-- Witness for C2: the 9-character value `#FF112233` (on a non-trivial
table, showing table independence) and the 7-character value `#112233`. -/
theorem c2_hash_alpha_swap_witness :
    (pyStartsWith "#FF112233" "#" = true
      ∧ get_color [("a", "#000000")] "#FF112233" 1 =
          Except.ok (if ("#FF112233" : String).length = 9
            then "#" ++ pySlice "#FF112233" 3 9 ++ pySlice "#FF112233" 1 3
            else "#FF112233"))
    ∧ (pyStartsWith "#bad" "#" = true
      ∧ get_color [("a", "#000000")] "#bad" 1 =
          Except.ok (if ("#bad" : String).length = 9
            then "#" ++ pySlice "#bad" 3 9 ++ pySlice "#bad" 1 3
            else "#bad")) :=
  ⟨⟨rfl, c2_hash_alpha_swap [("a", "#000000")] "#FF112233" 1 rfl⟩,
   ⟨rfl, c2_hash_alpha_swap [("a", "#000000")] "#bad" 1 rfl⟩⟩

/-- Claim C3: on every colour table with the stated entries, a two-hop
chain `@color/a → @color/b → #112233` resolves to `#112233`; a three-hop
chain `a → b → c → literal` fails with the depth error (the third hop is
rejected before `c` is ever dereferenced — the literal plays no role); and
for every non-`#` value the `depth >= 3` guard fires before any
dereferencing (even a value with no `@color/` marker, which would
otherwise be a malformed-value error, reports depth exhaustion). -/
theorem c3_reference_chains (cm : ColorMap) :
    (lookupMap cm "a" = some "@color/b" → lookupMap cm "b" = some "#112233" →
      get_color cm "@color/a" 1 = Except.ok "#112233")
    ∧ (∀ litc, lookupMap cm "a" = some "@color/b" → lookupMap cm "b" = some "@color/c" →
        lookupMap cm "c" = some litc →
        get_color cm "@color/a" 1 = Except.error ConvError.referenceDepthExceeded)
    ∧ (∀ v d, pyStartsWith v "#" = false → 3 ≤ d →
        get_color cm v d = Except.error ConvError.referenceDepthExceeded) := by
  refine ⟨?_, ?_, ?_⟩
  · intro ha hb
    have h1 : get_color cm "@color/a" 1 = get_color cm "@color/b" 2 :=
      get_color_step_ref cm "@color/a" "@color/b" 1 rfl (by omega) rfl ha rfl rfl
    have h2 : get_color cm "@color/b" 2 = Except.ok "#112233" :=
      get_color_step_value cm "@color/b" "#112233" 2 rfl (by omega) rfl hb rfl rfl
    exact h1.trans h2
  · intro litc ha hb _hc
    have h1 : get_color cm "@color/a" 1 = get_color cm "@color/b" 2 :=
      get_color_step_ref cm "@color/a" "@color/b" 1 rfl (by omega) rfl ha rfl rfl
    have h2 : get_color cm "@color/b" 2 = get_color cm "@color/c" 3 :=
      get_color_step_ref cm "@color/b" "@color/c" 2 rfl (by omega) rfl hb rfl rfl
    have h3 : get_color cm "@color/c" 3 = Except.error ConvError.referenceDepthExceeded :=
      get_color_depth_guard cm "@color/c" 3 rfl (by omega)
    exact (h1.trans h2).trans h3
  · intro v d hv hd
    exact get_color_depth_guard cm v d hv hd

/-- Witness for C3: the concrete tables of the specification, and a
non-`#` value at depth 3. -/
theorem c3_reference_chains_witness :
    (lookupMap [("a", "@color/b"), ("b", "#112233")] "a" = some "@color/b"
      ∧ lookupMap [("a", "@color/b"), ("b", "#112233")] "b" = some "#112233"
      ∧ get_color [("a", "@color/b"), ("b", "#112233")] "@color/a" 1 = Except.ok "#112233")
    ∧ (lookupMap [("a", "@color/b"), ("b", "@color/c"), ("c", "#000000")] "a" = some "@color/b"
      ∧ lookupMap [("a", "@color/b"), ("b", "@color/c"), ("c", "#000000")] "b" = some "@color/c"
      ∧ lookupMap [("a", "@color/b"), ("b", "@color/c"), ("c", "#000000")] "c" = some "#000000"
      ∧ get_color [("a", "@color/b"), ("b", "@color/c"), ("c", "#000000")] "@color/a" 1 =
          Except.error ConvError.referenceDepthExceeded)
    ∧ (pyStartsWith "@color/zzz" "#" = false ∧ 3 ≤ 3
      ∧ get_color [("a", "@color/b"), ("b", "#112233")] "@color/zzz" 3 =
          Except.error ConvError.referenceDepthExceeded) :=
  ⟨⟨rfl, rfl, (c3_reference_chains [("a", "@color/b"), ("b", "#112233")]).1 rfl rfl⟩,
   ⟨rfl, rfl, rfl,
    (c3_reference_chains
        [("a", "@color/b"), ("b", "@color/c"), ("c", "#000000")]).2.1 "#000000" rfl rfl rfl⟩,
   ⟨rfl, le_refl 3,
    (c3_reference_chains [("a", "@color/b"), ("b", "#112233")]).2.2 "@color/zzz" 3 rfl
      (le_refl 3)⟩⟩

/-- Counterexample to claim C4 as stated: `#FF112233` is a literal colour
value beginning with `#` with 8 hex digits, yet resolution (on the empty
table) does not return it unchanged — the alpha pair is moved to the end,
yielding `#112233FF`. -/
theorem c4_counterexample :
    get_color [] "#FF112233" 1 = Except.ok "#112233FF"
      ∧ "#112233FF" ≠ "#FF112233" :=
  ⟨rfl, by decide⟩

/-- Claim C4 (amended): for every colour table `T` and every literal value
`v` beginning with `#` whose length is not 9 — in particular every
6-hex-digit literal `#RRGGBB` — resolution is the identity,
`resolve(T, v) = v`; 9-character literals (`#` + 8 hex digits) are instead
rewritten with the alpha pair moved to the end. -/
theorem c4_literal_fixed_point (cm : ColorMap) (v : String) (d : Nat)
    (h1 : pyStartsWith v "#" = true) (h2 : v.length ≠ 9) :
    get_color cm v d = Except.ok v := by
  rw [get_color_hash cm v d h1, if_neg h2]

/-- Witness for C4 (amended): the 6-digit literal `#112233` is a fixed
point on a non-trivial table. -/
theorem c4_literal_fixed_point_witness :
    pyStartsWith "#112233" "#" = true ∧ ("#112233" : String).length ≠ 9
      ∧ get_color [("a", "#000000")] "#112233" 1 = Except.ok "#112233" :=
  ⟨rfl, by decide, c4_literal_fixed_point [("a", "#000000")] "#112233" 1 rfl (by decide)⟩

/-- Claim C8: for every colour table and every reference `@color/name`
whose name (itself free of the `@color/` marker) is absent from the table,
resolution returns the original raw reference string unchanged, and no
error is raised. -/
theorem c8_unknown_name_passthrough (cm : ColorMap) (name : String)
    (h1 : strContains name atColorStr = false)
    (h2 : lookupMap cm name = none) :
    get_color cm ("@color/" ++ name) 1 = Except.ok ("@color/" ++ name) := by
  apply get_color_step_none cm ("@color/" ++ name) 1
    (pyStartsWith_atColor_hash name) (by omega) (strContains_atColor_append name)
  rw [splitSecond_atColor_append name h1]
  exact h2

/-- Witness for C8: the name `nope` is absent from a one-entry table. -/
theorem c8_unknown_name_passthrough_witness :
    strContains "nope" atColorStr = false
      ∧ lookupMap [("x", "#111111")] "nope" = none
      ∧ get_color [("x", "#111111")] ("@color/" ++ "nope") 1 =
          Except.ok ("@color/" ++ "nope") :=
  ⟨rfl, rfl, c8_unknown_name_passthrough [("x", "#111111")] "nope" rfl rfl⟩

/-- Claim C10: for every colour table mapping the referenced name to the
empty string (the falsy value a colour entry can carry), resolution
behaves exactly as for an absent name: the original `@color/name`
reference is returned, not the empty value, and no error is raised. -/
theorem c10_empty_value_like_absent (cm : ColorMap) (name : String)
    (h1 : strContains name atColorStr = false)
    (h2 : lookupMap cm name = some "") :
    get_color cm ("@color/" ++ name) 1 = Except.ok ("@color/" ++ name) := by
  apply get_color_step_empty cm ("@color/" ++ name) 1
    (pyStartsWith_atColor_hash name) (by omega) (strContains_atColor_append name)
  rw [splitSecond_atColor_append name h1]
  exact h2

/-- Witness for C10: the name `e` maps to the empty string. -/
theorem c10_empty_value_like_absent_witness :
    strContains "e" atColorStr = false
      ∧ lookupMap [("e", "")] "e" = some ""
      ∧ get_color [("e", "")] ("@color/" ++ "e") 1 = Except.ok ("@color/" ++ "e") :=
  ⟨rfl, rfl, c10_empty_value_like_absent [("e", "")] "e" rfl rfl⟩

/-! ## Lemmas about document trees -/

theorem descWP_mk (i : Nat) (t : String) (a : List (String × String)) (cs : List VNode) :
    descWP (.mk i t a cs) = descWP.go (.mk i t a cs) cs := rfl

theorem descWP_go_nil (parent : VNode) : descWP.go parent [] = [] := rfl

theorem descWP_go_cons (parent c : VNode) (rest : List VNode) :
    descWP.go parent (c :: rest) = (parent, c) :: (descWP c ++ descWP.go parent rest) := rfl

/-- Size of a constructed node, for termination arguments. -/
theorem VNode.sizeOf_mk (i : Nat) (t : String) (a : List (String × String))
    (cs : List VNode) :
    sizeOf (VNode.mk i t a cs) = 1 + sizeOf i + sizeOf t + sizeOf a + sizeOf cs := by
  simp [Nat.add_assoc]

/-- Structural induction over the nested tree type. -/
theorem VNode.inductionOn (P : VNode → Prop)
    (step : ∀ i t a cs, (∀ c, c ∈ cs → P c) → P (VNode.mk i t a cs)) :
    ∀ n, P n := by
  have key : ∀ k, ∀ n : VNode, sizeOf n ≤ k → P n := by
    intro k
    induction k with
    | zero =>
      intro n hn
      cases n with
      | mk i t a cs => rw [VNode.sizeOf_mk] at hn; omega
    | succ k ih =>
      intro n hn
      cases n with
      | mk i t a cs =>
        apply step
        intro c hc
        apply ih
        have h1 := List.sizeOf_lt_of_mem hc
        rw [VNode.sizeOf_mk] at hn
        omega
  intro n
  exact key (sizeOf n) n le_rfl

/-- Membership in the parent-pair list of the children traversal. -/
theorem mem_descWP_go (parent q p : VNode) (l : List VNode) :
    (q, p) ∈ descWP.go parent l ↔ ∃ c ∈ l, (q = parent ∧ p = c) ∨ (q, p) ∈ descWP c := by
  induction l with
  | nil => simp [descWP_go_nil]
  | cons c rest ih =>
    rw [descWP_go_cons]
    simp only [List.mem_cons, List.mem_append, ih, Prod.mk.injEq]
    constructor
    · rintro (⟨hq, hp⟩ | h | ⟨c', hc', h'⟩)
      · exact ⟨c, by simp, Or.inl ⟨hq, hp⟩⟩
      · exact ⟨c, by simp, Or.inr h⟩
      · exact ⟨c', by simp [hc'], h'⟩
    · rintro ⟨c', hc', h'⟩
      rcases hc' with rfl | hc'
      · rcases h' with ⟨hq, hp⟩ | h
        · exact Or.inl ⟨hq, hp⟩
        · exact Or.inr (Or.inl h)
      · exact Or.inr (Or.inr ⟨c', hc', h'⟩)

/-- Membership in the descendant-with-parent list of a node. -/
theorem mem_descWP (n q p : VNode) :
    (q, p) ∈ descWP n ↔ ∃ c ∈ n.children, (q = n ∧ p = c) ∨ (q, p) ∈ descWP c := by
  cases n with
  | mk i t a cs => rw [descWP_mk, mem_descWP_go]; rfl

/-- The parent component of every pair is the pair's actual parent: the
second component is among the first component's children. -/
theorem child_of_descWP (n q p : VNode) (h : (q, p) ∈ descWP n) : p ∈ q.children := by
  induction n using VNode.inductionOn with
  | step i t a cs ih =>
    rw [mem_descWP] at h
    rcases h with ⟨c, hc, ⟨rfl, rfl⟩ | h⟩
    · exact hc
    · exact ih c hc h

/-- Every descendant is strictly smaller than the root of its traversal. -/
theorem sizeOf_snd_descWP (n q p : VNode) (h : (q, p) ∈ descWP n) :
    sizeOf p < sizeOf n := by
  induction n using VNode.inductionOn with
  | step i t a cs ih =>
    rw [mem_descWP] at h
    simp only [VNode.children] at h
    rcases h with ⟨c, hc, ⟨rfl, rfl⟩ | h⟩
    · have := List.sizeOf_lt_of_mem hc
      rw [VNode.sizeOf_mk]
      omega
    · have h1 := ih c hc h
      have h2 := List.sizeOf_lt_of_mem hc
      rw [VNode.sizeOf_mk]
      omega

/-- Membership in the node list of a document. -/
theorem mem_nodesOf (n m : VNode) :
    m ∈ nodesOf n ↔ m = n ∨ ∃ q, (q, m) ∈ descWP n := by
  unfold nodesOf
  simp only [List.mem_cons, List.mem_map]
  constructor
  · rintro (rfl | ⟨⟨q, p⟩, hqp, rfl⟩)
    · exact Or.inl rfl
    · exact Or.inr ⟨q, hqp⟩
  · rintro (rfl | ⟨q, hq⟩)
    · exact Or.inl rfl
    · exact Or.inr ⟨(q, m), hq, rfl⟩

/-- Every node of a document is bounded by the document's size. -/
theorem sizeOf_mem_nodesOf (n m : VNode) (h : m ∈ nodesOf n) : sizeOf m ≤ sizeOf n := by
  rw [mem_nodesOf] at h
  rcases h with rfl | ⟨q, hq⟩
  · exact le_refl _
  · exact le_of_lt (sizeOf_snd_descWP n q m hq)

/-- A child pair of a traversed node belongs to the traversal. -/
theorem descWP_of_child (n p : VNode) (h : p ∈ n.children) : (n, p) ∈ descWP n := by
  rw [mem_descWP]
  exact ⟨p, h, Or.inl ⟨rfl, rfl⟩⟩

/-- Pairs of a child's traversal belong to the parent's traversal. -/
theorem descWP_of_child_descWP (n c q p : VNode) (hc : c ∈ n.children)
    (h : (q, p) ∈ descWP c) : (q, p) ∈ descWP n := by
  rw [mem_descWP]
  exact ⟨c, hc, Or.inr h⟩

/-- Pairs of the traversal of any node of a document belong to the
document's traversal. -/
theorem descWP_of_mem_nodesOf (n q r m : VNode) (hq : q ∈ nodesOf n)
    (h : (r, m) ∈ descWP q) : (r, m) ∈ descWP n := by
  induction n using VNode.inductionOn with
  | step i t a cs ih =>
    rw [mem_nodesOf] at hq
    rcases hq with rfl | ⟨s, hs⟩
    · exact h
    · rw [mem_descWP] at hs
      rcases hs with ⟨c, hc, ⟨hs1, rfl⟩ | hs⟩
      · exact descWP_of_child_descWP _ q r m hc h
      · have hq' : q ∈ nodesOf c := (mem_nodesOf c q).mpr (Or.inr ⟨s, hs⟩)
        exact descWP_of_child_descWP _ c r m hc (ih c hc hq')

/-- The node list of any node of a document is contained in the
document's node list. -/
theorem nodesOf_sub (n q : VNode) (hq : q ∈ nodesOf n) : nodesOf q ⊆ nodesOf n := by
  intro m hm
  rw [mem_nodesOf] at hm
  rcases hm with rfl | ⟨r, hr⟩
  · exact hq
  · exact (mem_nodesOf n m).mpr (Or.inr ⟨r, descWP_of_mem_nodesOf n q r m hq hr⟩)

/-- A parent appearing in a traversal is a node of the document. -/
theorem parent_mem_nodesOf (n q p : VNode) (h : (q, p) ∈ descWP n) : q ∈ nodesOf n := by
  induction n using VNode.inductionOn with
  | step i t a cs ih =>
    rw [mem_descWP] at h
    rcases h with ⟨c, hc, ⟨rfl, rfl⟩ | h⟩
    · rw [mem_nodesOf]; exact Or.inl rfl
    · exact nodesOf_sub _ c ((mem_nodesOf _ c).mpr (Or.inr ⟨_, descWP_of_child _ c hc⟩))
        (ih c hc h)

/-- A child of a node of the document pairs with it in the document's
traversal. -/
theorem descWP_of_nodesOf_child (n q p : VNode) (hq : q ∈ nodesOf n)
    (hp : p ∈ q.children) : (q, p) ∈ descWP n :=
  descWP_of_mem_nodesOf n q q p hq (descWP_of_child q p hp)

/-- In a well-formed document, node identities determine nodes. -/
theorem nid_inj (doc x y : VNode) (hwf : idsNodup doc) (hx : x ∈ nodesOf doc)
    (hy : y ∈ nodesOf doc) (h : x.nid = y.nid) : x = y :=
  List.inj_on_of_nodup_map hwf hx hy h

/-- A child is strictly smaller than its parent node. -/
theorem sizeOf_child_lt (c d : VNode) (h : d ∈ c.children) : sizeOf d < sizeOf c := by
  cases c with
  | mk i t a cs =>
    simp only [VNode.children] at h
    have := List.sizeOf_lt_of_mem h
    rw [VNode.sizeOf_mk]
    omega

/-- In a well-formed document, no pair found strictly below a child of `c`
carries the identity of `c` as its parent. -/
theorem strict_parent_nid_ne (doc c d q p : VNode) (hwf : idsNodup doc)
    (hc : c ∈ nodesOf doc) (hd : d ∈ c.children) (h : (q, p) ∈ descWP d) :
    q.nid ≠ c.nid := by
  intro hqc
  have hqd : q ∈ nodesOf d := parent_mem_nodesOf d q p h
  have hdc : d ∈ nodesOf c :=
    (mem_nodesOf c d).mpr (Or.inr ⟨c, descWP_of_child c d hd⟩)
  have hqdoc : q ∈ nodesOf doc := nodesOf_sub doc c hc (nodesOf_sub c d hdc hqd)
  have hq : q = c := nid_inj doc q c hwf hqdoc hc hqc
  have h1 : sizeOf q ≤ sizeOf d := sizeOf_mem_nodesOf d q hqd
  have h2 : sizeOf d < sizeOf c := sizeOf_child_lt c d hd
  rw [hq] at h1
  omega

/-- Filtering the traversal of `c` for pairs whose parent has the identity
of `c` keeps exactly the direct children, provided no strictly deeper pair
carries that identity. -/
theorem selectedPaths_go (c : VNode) (l : List VNode)
    (hne : ∀ d, d ∈ l → ∀ q p, (q, p) ∈ descWP d → q.nid ≠ c.nid) :
    ((descWP.go c l).filter (fun pc => pc.2.tag == "path" && pc.1.nid == c.nid)).map Prod.snd
      = l.filter (fun x => x.tag == "path") := by
  induction l with
  | nil => simp [descWP_go_nil]
  | cons d rest ih =>
    have hdesc : (descWP d).filter
        (fun pc => pc.2.tag == "path" && pc.1.nid == c.nid) = [] := by
      rw [List.filter_eq_nil_iff]
      rintro ⟨q, p⟩ hqp
      have h1 : (q.nid == c.nid) = false := by
        have := hne d (by simp) q p hqp
        simp [this]
      simp [h1]
    have ih' := ih (fun d' hd' q p hqp => hne d' (List.mem_cons_of_mem _ hd') q p hqp)
    rw [descWP_go_cons, List.filter_cons, List.filter_append, hdesc, List.nil_append]
    by_cases hp : (d.tag == "path") = true
    · simp only [hp, beq_self_eq_true, Bool.and_true, if_true, List.map_cons, ih',
        List.filter_cons]
    · have hp' : (d.tag == "path") = false := by
        cases hq : (d.tag == "path") with
        | false => rfl
        | true => exact absurd hq hp
      simp only [hp', beq_self_eq_true, Bool.and_true, if_false, ih', List.filter_cons]
      exact ih'

/-- In a well-formed document, the paths `convert_paths` accepts from a
node are exactly the node's direct children with tag `path`, in child
order. -/
theorem selectedPaths_eq (doc c : VNode) (hwf : idsNodup doc) (hc : c ∈ nodesOf doc) :
    selectedPaths c = c.children.filter (fun x => x.tag == "path") := by
  unfold selectedPaths
  cases c with
  | mk i t a cs =>
    rw [descWP_mk]
    show ((descWP.go (VNode.mk i t a cs) cs).filter _).map Prod.snd = cs.filter _
    rw [selectedPaths_go (VNode.mk i t a cs) cs]
    intro d hd q p hqp
    exact strict_parent_nid_ne doc (VNode.mk i t a cs) d q p hwf hc hd hqp

/-! ## Lemmas about `Except` and `mapM` -/

theorem except_bind_ok {α β : Type} (a : α) (f : α → Except ConvError β) :
    (Except.ok a >>= f) = f a := rfl

theorem except_bind_err {α β : Type} (e : ConvError) (f : α → Except ConvError β) :
    ((Except.error e : Except ConvError α) >>= f) = Except.error e := rfl

theorem except_pure {α : Type} (a : α) : (pure a : Except ConvError α) = Except.ok a := rfl

/-- Successful monadic mapping is pointwise success. -/
theorem mapM_ok_iff {α β : Type} (f : α → Except ConvError β) (l : List α) (bs : List β) :
    l.mapM f = Except.ok bs ↔ List.Forall₂ (fun a b => f a = Except.ok b) l bs := by
  induction l generalizing bs with
  | nil =>
    rw [List.mapM_nil, except_pure]
    constructor
    · intro h
      cases h with
      | refl => exact List.Forall₂.nil
    · intro h
      cases h
      rfl
  | cons a l ih =>
    rw [List.mapM_cons]
    cases hfa : f a with
    | error e =>
      rw [except_bind_err]
      constructor
      · intro h; cases h
      · intro h
        cases h with
        | cons hab htl =>
          rw [hfa] at hab
          cases hab
    | ok b =>
      rw [except_bind_ok]
      cases hml : l.mapM f with
      | error e =>
        rw [except_bind_err]
        constructor
        · intro h; cases h
        · intro h
          cases h with
          | cons hab htl =>
            rw [← ih] at htl
            rw [hml] at htl
            cases htl
      | ok xs =>
        rw [except_bind_ok, except_pure]
        constructor
        · intro h
          cases h with
          | refl => exact List.Forall₂.cons hfa ((ih xs).mp hml)
        · intro h
          cases h with
          | cons hab htl =>
            rw [hfa] at hab
            injection hab with hb
            have h2 := (ih _).mpr htl
            rw [hml] at h2
            injection h2 with hxs
            rw [hb, hxs]

/-- Reading a required attribute succeeds exactly when it is present. -/
theorem getAttrE_ok (n : VNode) (s v : String) :
    getAttrE n s = Except.ok v ↔ getAttr? n s = some v := by
  unfold getAttrE
  cases h : getAttr? n s with
  | none => simp
  | some w => simp

/-- Inversion of a successful conversion: the required viewport attributes
were present, every group converted, the root-level paths converted, and
the output root is the `svg` element assembled from them, groups first. -/
theorem convert_ok_decomp (doc : VNode) (cm : ColorMap) (vb : Bool) (vd : VNode)
    (out : SNode) (hvd : firstVector doc = some vd)
    (hok : convert_vector_drawable_xml doc cm vb = Except.ok out) :
    ∃ w h gs ps,
      getAttr? vd "android:viewportWidth" = some w
      ∧ getAttr? vd "android:viewportHeight" = some h
      ∧ (groupsOf doc).mapM (convert_group cm) = Except.ok gs
      ∧ convert_paths cm vd = Except.ok ps
      ∧ out = SNode.mk "svg" (svgRootAttrs vb w h) (gs ++ ps) := by
  unfold convert_vector_drawable_xml at hok
  simp only [hvd] at hok
  cases hw : getAttrE vd "android:viewportWidth" with
  | error e => exact absurd (by simp only [hw] at hok; exact hok) (by simp)
  | ok w =>
  simp only [hw] at hok
  cases hh : getAttrE vd "android:viewportHeight" with
  | error e => exact absurd (by simp only [hh] at hok; exact hok) (by simp)
  | ok h =>
  simp only [hh] at hok
  cases hgs : (groupsOf doc).mapM (convert_group cm) with
  | error e => exact absurd (by simp only [hgs] at hok; exact hok) (by simp)
  | ok gs =>
  simp only [hgs] at hok
  cases hps : convert_paths cm vd with
  | error e => exact absurd (by simp only [hps] at hok; exact hok) (by simp)
  | ok ps =>
  simp only [hps, Except.ok.injEq] at hok
  exact ⟨w, h, gs, ps, (getAttrE_ok vd _ w).mp hw, (getAttrE_ok vd _ h).mp hh,
    rfl, rfl, hok.symm⟩

/-- Inversion of a successful group conversion: the output is a `g`
element with the computed transform attributes, containing exactly the
converted accepted paths of the source group. -/
theorem convert_group_ok (cm : ColorMap) (g : VNode) (sg : SNode)
    (h : convert_group cm g = Except.ok sg) :
    ∃ pelems, sg = SNode.mk "g" (groupAttrs g) pelems
      ∧ convert_paths cm g = Except.ok pelems := by
  unfold convert_group at h
  cases hcp : convert_paths cm g with
  | error e => exact absurd (by simp only [hcp] at h; exact h) (by simp)
  | ok ps =>
    simp only [hcp, Except.ok.injEq] at h
    exact ⟨ps, h.symm, rfl⟩

/-- Every successfully converted path element is a childless `path`
element. -/
theorem convert_path_elem_shape (cm : ColorMap) (sp : VNode) (op : SNode)
    (h : convert_path_elem cm sp = Except.ok op) :
    op.tag = "path" ∧ op.children = [] := by
  unfold convert_path_elem at h
  cases h1 : getAttrE sp "android:pathData" with
  | error e => exact absurd (by simp only [h1] at h; exact h) (by simp)
  | ok d =>
  simp only [h1] at h
  cases h2 : (match getAttr? sp "android:fillColor" with
              | some fc => get_color cm fc 1
              | none => Except.ok "none") with
  | error e => exact absurd (by simp only [h2] at h; exact h) (by simp)
  | ok fill =>
  simp only [h2] at h
  cases h3 : (match getAttr? sp "android:strokeColor" with
              | some sc =>
                match get_color cm sc 1 with
                | Except.error e => Except.error e
                | Except.ok c => Except.ok [("stroke", c)]
              | none => Except.ok []) with
  | error e => exact absurd (by simp only [h3] at h; exact h) (by simp)
  | ok strokeA =>
  simp only [h3, Except.ok.injEq] at h
  rw [← h]
  exact ⟨rfl, rfl⟩

/-! ## Claims about the structural mapper -/

/-- Claim C5: for every successfully converted source group, the output
group carries a transform attribute exactly when at least one of the
declared `android:translateX`/`android:translateY` values is truthy
(declared and non-empty; an undeclared coordinate is the falsy `0`),
formatted as `translate(X,Y)` from the raw attribute strings with `0`
substituted for an absent coordinate; a group declaring neither carries no
transform attribute. -/
theorem c5_group_transform (cm : ColorMap) (g : VNode) (sg : SNode)
    (h : convert_group cm g = Except.ok sg) :
    sGetAttr? sg "transform" =
      (if pyTruthy (getAttr? g "android:translateX")
          || pyTruthy (getAttr? g "android:translateY")
       then some ("translate(" ++ (getAttr? g "android:translateX").getD "0"
           ++ "," ++ (getAttr? g "android:translateY").getD "0" ++ ")")
       else none) := by
  obtain ⟨pelems, rfl, _⟩ := convert_group_ok cm g sg h
  show sGetAttr? (SNode.mk "g" (groupAttrs g) pelems) "transform" = _
  unfold sGetAttr? groupAttrs
  by_cases hc : (pyTruthy (getAttr? g "android:translateX")
      || pyTruthy (getAttr? g "android:translateY")) = true
  · rw [if_pos hc, if_pos hc]
    rfl
  · rw [if_neg hc, if_neg hc]
    rfl

/-- Witness for C5: a group with `translateX="5"` and no `translateY`
produces `transform="translate(5,0)"`; a group declaring neither produces
no transform attribute. -/
theorem c5_group_transform_witness :
    (convert_group [] (VNode.mk 1 "group" [("android:translateX", "5")] []) =
        Except.ok (SNode.mk "g" [("transform", "translate(5,0)")] [])
      ∧ sGetAttr? (SNode.mk "g" [("transform", "translate(5,0)")] []) "transform" =
          (if pyTruthy (getAttr? (VNode.mk 1 "group" [("android:translateX", "5")] [])
                "android:translateX")
              || pyTruthy (getAttr? (VNode.mk 1 "group" [("android:translateX", "5")] [])
                "android:translateY")
           then some ("translate("
               ++ (getAttr? (VNode.mk 1 "group" [("android:translateX", "5")] [])
                    "android:translateX").getD "0"
               ++ ","
               ++ (getAttr? (VNode.mk 1 "group" [("android:translateX", "5")] [])
                    "android:translateY").getD "0" ++ ")")
           else none))
    ∧ (convert_group [] (VNode.mk 2 "group" [] []) = Except.ok (SNode.mk "g" [] [])
      ∧ sGetAttr? (SNode.mk "g" [] []) "transform" =
          (if pyTruthy (getAttr? (VNode.mk 2 "group" [] []) "android:translateX")
              || pyTruthy (getAttr? (VNode.mk 2 "group" [] []) "android:translateY")
           then some ("translate("
               ++ (getAttr? (VNode.mk 2 "group" [] []) "android:translateX").getD "0"
               ++ ","
               ++ (getAttr? (VNode.mk 2 "group" [] []) "android:translateY").getD "0" ++ ")")
           else none)) :=
  ⟨⟨rfl, c5_group_transform [] (VNode.mk 1 "group" [("android:translateX", "5")] []) _ rfl⟩,
   ⟨rfl, c5_group_transform [] (VNode.mk 2 "group" [] []) _ rfl⟩⟩

/-- Claim C7: for every source document with viewport width `w` and height
`h`, the output root always carries `viewBox="0 0 w h"` regardless of the
viewbox-only flag, and carries `width=w`/`height=h` copied verbatim
exactly when the flag is false. -/
theorem c7_viewbox_and_dimensions (doc vd : VNode) (cm : ColorMap) (vb : Bool)
    (out : SNode) (w h : String)
    (hvd : firstVector doc = some vd)
    (hw : getAttr? vd "android:viewportWidth" = some w)
    (hh : getAttr? vd "android:viewportHeight" = some h)
    (hok : convert_vector_drawable_xml doc cm vb = Except.ok out) :
    sGetAttr? out "viewBox" = some ("0 0 " ++ w ++ " " ++ h)
    ∧ sGetAttr? out "width" = (if vb then none else some w)
    ∧ sGetAttr? out "height" = (if vb then none else some h) := by
  obtain ⟨w', h', gs, ps, hw', hh', hgs, hps, rfl⟩ :=
    convert_ok_decomp doc cm vb vd out hvd hok
  rw [hw] at hw'
  rw [hh] at hh'
  injection hw' with hw2
  injection hh' with hh2
  subst hw2
  subst hh2
  cases vb
  · exact ⟨rfl, rfl, rfl⟩
  · exact ⟨rfl, rfl, rfl⟩

/-- Witness for C7: a viewport-24 document converted with and without the
viewbox-only flag. -/
theorem c7_viewbox_and_dimensions_witness :
    (convert_vector_drawable_xml
        (VNode.mk 0 "vector"
          [("android:viewportWidth", "24"), ("android:viewportHeight", "24")] []) [] false =
      Except.ok (SNode.mk "svg"
        [("xmlns", "http://www.w3.org/2000/svg"), ("width", "24"), ("height", "24"),
         ("viewBox", "0 0 24 24")] [])
      ∧ sGetAttr? (SNode.mk "svg"
          [("xmlns", "http://www.w3.org/2000/svg"), ("width", "24"), ("height", "24"),
           ("viewBox", "0 0 24 24")] []) "viewBox" = some "0 0 24 24"
      ∧ sGetAttr? (SNode.mk "svg"
          [("xmlns", "http://www.w3.org/2000/svg"), ("width", "24"), ("height", "24"),
           ("viewBox", "0 0 24 24")] []) "width" = some "24"
      ∧ sGetAttr? (SNode.mk "svg"
          [("xmlns", "http://www.w3.org/2000/svg"), ("width", "24"), ("height", "24"),
           ("viewBox", "0 0 24 24")] []) "height" = some "24")
    ∧ (convert_vector_drawable_xml
        (VNode.mk 0 "vector"
          [("android:viewportWidth", "24"), ("android:viewportHeight", "24")] []) [] true =
      Except.ok (SNode.mk "svg"
        [("xmlns", "http://www.w3.org/2000/svg"), ("viewBox", "0 0 24 24")] [])
      ∧ sGetAttr? (SNode.mk "svg"
          [("xmlns", "http://www.w3.org/2000/svg"), ("viewBox", "0 0 24 24")] [])
          "viewBox" = some "0 0 24 24"
      ∧ sGetAttr? (SNode.mk "svg"
          [("xmlns", "http://www.w3.org/2000/svg"), ("viewBox", "0 0 24 24")] [])
          "width" = none
      ∧ sGetAttr? (SNode.mk "svg"
          [("xmlns", "http://www.w3.org/2000/svg"), ("viewBox", "0 0 24 24")] [])
          "height" = none) :=
  ⟨⟨rfl,
    c7_viewbox_and_dimensions
      (VNode.mk 0 "vector"
        [("android:viewportWidth", "24"), ("android:viewportHeight", "24")] [])
      (VNode.mk 0 "vector"
        [("android:viewportWidth", "24"), ("android:viewportHeight", "24")] [])
      [] false _ "24" "24" rfl rfl rfl rfl⟩,
   ⟨rfl,
    c7_viewbox_and_dimensions
      (VNode.mk 0 "vector"
        [("android:viewportWidth", "24"), ("android:viewportHeight", "24")] [])
      (VNode.mk 0 "vector"
        [("android:viewportWidth", "24"), ("android:viewportHeight", "24")] [])
      [] true _ "24" "24" rfl rfl rfl rfl⟩⟩

/-- Claim C6: a successful conversion processes every group node of the
source document — collected globally, in document order, regardless of
nesting depth — into consecutive children of the output root, and only
after all of them come the conversions of the paths that are direct
children of the `vector` root, never interleaved by source position. -/
theorem c6_groups_before_root_paths (doc vd : VNode) (cm : ColorMap) (vb : Bool)
    (out : SNode)
    (hwf : idsNodup doc) (hvd : firstVector doc = some vd)
    (hok : convert_vector_drawable_xml doc cm vb = Except.ok out) :
    ∃ gs ps, out.children = gs ++ ps
      ∧ List.Forall₂ (fun g sg => convert_group cm g = Except.ok sg) (groupsOf doc) gs
      ∧ (vd.children.filter (fun x => x.tag == "path")).mapM (convert_path_elem cm)
          = Except.ok ps := by
  obtain ⟨w, h, gs, ps, hw, hh, hgs, hps, rfl⟩ :=
    convert_ok_decomp doc cm vb vd out hvd hok
  refine ⟨gs, ps, rfl, (mapM_ok_iff _ _ _).mp hgs, ?_⟩
  have hvdmem : vd ∈ nodesOf doc := List.mem_of_find?_eq_some hvd
  have hsel := selectedPaths_eq doc vd hwf hvdmem
  unfold convert_paths at hps
  rw [hsel] at hps
  exact hps

/-- Witness for C6: a document whose root-level path comes first in source
order, followed by a group nested inside another group; the output lists
both groups (outer first, i.e. document order, the nested group included)
and only then the root-level path. -/
theorem c6_groups_before_root_paths_witness :
    idsNodup (VNode.mk 0 "vector"
        [("android:viewportWidth", "24"), ("android:viewportHeight", "24")]
        [VNode.mk 1 "path" [("android:pathData", "M1 1")] [],
         VNode.mk 2 "group" []
           [VNode.mk 3 "group" [] [VNode.mk 4 "path" [("android:pathData", "M4 4")] []]]])
    ∧ convert_vector_drawable_xml (VNode.mk 0 "vector"
        [("android:viewportWidth", "24"), ("android:viewportHeight", "24")]
        [VNode.mk 1 "path" [("android:pathData", "M1 1")] [],
         VNode.mk 2 "group" []
           [VNode.mk 3 "group" [] [VNode.mk 4 "path" [("android:pathData", "M4 4")] []]]])
        [] false =
      Except.ok (SNode.mk "svg"
        [("xmlns", "http://www.w3.org/2000/svg"), ("width", "24"), ("height", "24"),
         ("viewBox", "0 0 24 24")]
        [SNode.mk "g" [] [],
         SNode.mk "g" [] [SNode.mk "path" [("d", "M4 4"), ("fill", "none")] []],
         SNode.mk "path" [("d", "M1 1"), ("fill", "none")] []])
    ∧ (∃ gs ps,
        (SNode.mk "svg"
          [("xmlns", "http://www.w3.org/2000/svg"), ("width", "24"), ("height", "24"),
           ("viewBox", "0 0 24 24")]
          [SNode.mk "g" [] [],
           SNode.mk "g" [] [SNode.mk "path" [("d", "M4 4"), ("fill", "none")] []],
           SNode.mk "path" [("d", "M1 1"), ("fill", "none")] []]).children = gs ++ ps
        ∧ List.Forall₂ (fun g sg => convert_group [] g = Except.ok sg)
            (groupsOf (VNode.mk 0 "vector"
              [("android:viewportWidth", "24"), ("android:viewportHeight", "24")]
              [VNode.mk 1 "path" [("android:pathData", "M1 1")] [],
               VNode.mk 2 "group" []
                 [VNode.mk 3 "group" []
                   [VNode.mk 4 "path" [("android:pathData", "M4 4")] []]]])) gs
        ∧ ((VNode.mk 0 "vector"
              [("android:viewportWidth", "24"), ("android:viewportHeight", "24")]
              [VNode.mk 1 "path" [("android:pathData", "M1 1")] [],
               VNode.mk 2 "group" []
                 [VNode.mk 3 "group" []
                   [VNode.mk 4 "path" [("android:pathData", "M4 4")] []]]]).children.filter
              (fun x => x.tag == "path")).mapM (convert_path_elem [])
            = Except.ok ps) :=
  ⟨by decide, rfl,
   c6_groups_before_root_paths
     (VNode.mk 0 "vector"
       [("android:viewportWidth", "24"), ("android:viewportHeight", "24")]
       [VNode.mk 1 "path" [("android:pathData", "M1 1")] [],
        VNode.mk 2 "group" []
          [VNode.mk 3 "group" [] [VNode.mk 4 "path" [("android:pathData", "M4 4")] []]]])
     (VNode.mk 0 "vector"
       [("android:viewportWidth", "24"), ("android:viewportHeight", "24")]
       [VNode.mk 1 "path" [("android:pathData", "M1 1")] [],
        VNode.mk 2 "group" []
          [VNode.mk 3 "group" [] [VNode.mk 4 "path" [("android:pathData", "M4 4")] []]]])
     [] false _ (by decide) rfl rfl⟩

/-- Claim C9: every colour value that neither starts with `#` nor contains
the `@color/` marker makes resolution fail with the malformed-colour error
at the entry depth; the failure propagates through the conversion of any
path carrying it as fill colour, and aborts the whole document conversion
with that same error — the document is never partially recovered. -/
theorem c9_malformed_color_aborts (cm : ColorMap) (v : String)
    (h1 : pyStartsWith v "#" = false)
    (h2 : strContains v atColorStr = false) :
    get_color cm v 1 = Except.error ConvError.malformedColorValue
    ∧ (∀ p d0, getAttr? p "android:pathData" = some d0 →
        getAttr? p "android:fillColor" = some v →
        convert_path_elem cm p = Except.error ConvError.malformedColorValue)
    ∧ (∀ doc vd p d0 w h vb, firstVector doc = some vd →
        getAttr? vd "android:viewportWidth" = some w →
        getAttr? vd "android:viewportHeight" = some h →
        groupsOf doc = [] →
        selectedPaths vd = [p] →
        getAttr? p "android:pathData" = some d0 →
        getAttr? p "android:fillColor" = some v →
        convert_vector_drawable_xml doc cm vb =
          Except.error ConvError.malformedColorValue) := by
  have key1 : get_color cm v 1 = Except.error ConvError.malformedColorValue :=
    get_color_malformed cm v 1 h1 (by omega) h2
  have key2 : ∀ p d0, getAttr? p "android:pathData" = some d0 →
      getAttr? p "android:fillColor" = some v →
      convert_path_elem cm p = Except.error ConvError.malformedColorValue := by
    intro p d0 hpd hfc
    unfold convert_path_elem
    have e1 : getAttrE p "android:pathData" = Except.ok d0 := (getAttrE_ok p _ d0).mpr hpd
    simp only [e1, hfc, key1]
  refine ⟨key1, key2, ?_⟩
  intro doc vd p d0 w h vb hvd hw hh hgr hsel hpd hfc
  unfold convert_vector_drawable_xml
  simp only [hvd]
  have e1 : getAttrE vd "android:viewportWidth" = Except.ok w := (getAttrE_ok _ _ _).mpr hw
  have e2 : getAttrE vd "android:viewportHeight" = Except.ok h := (getAttrE_ok _ _ _).mpr hh
  have e3 : (groupsOf doc).mapM (convert_group cm) = Except.ok [] := by
    rw [hgr]
    rfl
  have e4 : convert_paths cm vd = Except.error ConvError.malformedColorValue := by
    unfold convert_paths
    rw [hsel, List.mapM_cons, key2 p d0 hpd hfc, except_bind_err]
  simp only [e1, e2, e3, e4]

/-- Witness for C9: the value `garbage` on the empty table, and a one-path
document whose fill colour is `garbage`. -/
theorem c9_malformed_color_aborts_witness :
    pyStartsWith "garbage" "#" = false
    ∧ strContains "garbage" atColorStr = false
    ∧ get_color [] "garbage" 1 = Except.error ConvError.malformedColorValue
    ∧ convert_path_elem []
        (VNode.mk 1 "path"
          [("android:pathData", "M0 0"), ("android:fillColor", "garbage")] []) =
        Except.error ConvError.malformedColorValue
    ∧ convert_vector_drawable_xml
        (VNode.mk 0 "vector"
          [("android:viewportWidth", "24"), ("android:viewportHeight", "24")]
          [VNode.mk 1 "path"
            [("android:pathData", "M0 0"), ("android:fillColor", "garbage")] []])
        [] false =
        Except.error ConvError.malformedColorValue :=
  ⟨rfl, rfl, (c9_malformed_color_aborts [] "garbage" rfl rfl).1,
   (c9_malformed_color_aborts [] "garbage" rfl rfl).2.1
     (VNode.mk 1 "path"
       [("android:pathData", "M0 0"), ("android:fillColor", "garbage")] [])
     "M0 0" rfl rfl,
   (c9_malformed_color_aborts [] "garbage" rfl rfl).2.2
     (VNode.mk 0 "vector"
       [("android:viewportWidth", "24"), ("android:viewportHeight", "24")]
       [VNode.mk 1 "path"
         [("android:pathData", "M0 0"), ("android:fillColor", "garbage")] []])
     (VNode.mk 0 "vector"
       [("android:viewportWidth", "24"), ("android:viewportHeight", "24")]
       [VNode.mk 1 "path"
         [("android:pathData", "M0 0"), ("android:fillColor", "garbage")] []])
     (VNode.mk 1 "path"
       [("android:pathData", "M0 0"), ("android:fillColor", "garbage")] [])
     "M0 0" "24" "24" false rfl rfl rfl rfl rfl rfl rfl⟩

/-- In a well-formed document every node has at most one parent pair. -/
theorem parent_unique (doc q q' p : VNode) (hwf : idsNodup doc)
    (h1 : (q, p) ∈ descWP doc) (h2 : (q', p) ∈ descWP doc) : q = q' := by
  unfold idsNodup nodesOf at hwf
  rw [List.map_cons, List.nodup_cons] at hwf
  have htl := hwf.2
  rw [List.map_map] at htl
  have heq : (q, p) = (q', p) :=
    List.inj_on_of_nodup_map htl h1 h2 rfl
  exact congrArg Prod.fst heq

/-- One side of `Forall₂`: every right element has a related left one. -/
theorem forall2_mem_right {α β : Type} {R : α → β → Prop} {l₁ : List α} {l₂ : List β}
    (h : List.Forall₂ R l₁ l₂) (b : β) (hb : b ∈ l₂) : ∃ a, a ∈ l₁ ∧ R a b := by
  induction h with
  | nil => cases hb
  | cons h1 htl ih =>
    rcases List.mem_cons.mp hb with rfl | hb'
    · exact ⟨_, List.mem_cons_self _ _, h1⟩
    · obtain ⟨a, ha, hr⟩ := ih hb'
      exact ⟨a, List.mem_cons_of_mem _ ha, hr⟩

/-! ## Lemmas about output trees -/

theorem allNodes_mk (t : String) (a : List (String × String)) (cs : List SNode) :
    (SNode.mk t a cs).allNodes = SNode.mk t a cs :: SNode.allNodes.go cs := rfl

theorem allNodes_go_nil : SNode.allNodes.go [] = [] := rfl

theorem allNodes_go_cons (c : SNode) (rest : List SNode) :
    SNode.allNodes.go (c :: rest) = c.allNodes ++ SNode.allNodes.go rest := rfl

theorem allNodes_go_eq (l : List SNode) :
    SNode.allNodes.go l = l.flatMap SNode.allNodes := by
  induction l with
  | nil => rfl
  | cons c rest ih => rw [allNodes_go_cons, List.flatMap_cons, ih]

/-- A childless output node is alone in its traversal. -/
theorem allNodes_leaf (s : SNode) (h : s.children = []) : s.allNodes = [s] := by
  cases s with
  | mk t a cs =>
    have hcs : cs = [] := h
    subst hcs
    rfl

theorem flatMap_allNodes_leaves (l : List SNode) (h : ∀ x ∈ l, x.children = []) :
    l.flatMap SNode.allNodes = l := by
  induction l with
  | nil => rfl
  | cons c rest ih =>
    rw [List.flatMap_cons, allNodes_leaf c (h c (by simp)),
      ih (fun x hx => h x (List.mem_cons_of_mem _ hx))]
    rfl

theorem filter_path_keep (l : List SNode) (h : ∀ x ∈ l, x.tag = "path") :
    l.filter (fun n => n.tag == "path") = l := by
  rw [List.filter_eq_self]
  intro x hx
  rw [h x hx]
  rfl

/-- The `path` elements of an output root assembled from converted groups
(each a `g` element containing only childless `path` elements) followed by
childless root-level `path` elements are: the groups' path children in
order, then the root-level paths. -/
theorem svgPathsOf_assembled (rootAttrs : List (String × String)) (gs ps : List SNode)
    (hg : ∀ sg ∈ gs, sg.tag = "g"
        ∧ ∀ pe ∈ sg.children, pe.tag = "path" ∧ pe.children = [])
    (hp : ∀ op ∈ ps, op.tag = "path" ∧ op.children = []) :
    svgPathsOf (SNode.mk "svg" rootAttrs (gs ++ ps)) =
      gs.flatMap SNode.children ++ ps := by
  unfold svgPathsOf
  rw [allNodes_mk, List.filter_cons, allNodes_go_eq, List.flatMap_append]
  have hroot : ((SNode.mk "svg" rootAttrs (gs ++ ps)).tag == "path") = false := rfl
  rw [hroot]
  simp only [if_false, Bool.false_eq_true]
  rw [List.filter_append]
  clear hroot
  have hps : (ps.flatMap SNode.allNodes).filter (fun n => n.tag == "path") = ps := by
    rw [flatMap_allNodes_leaves ps (fun x hx => (hp x hx).2)]
    exact filter_path_keep ps (fun x hx => (hp x hx).1)
  rw [hps]
  have hgs : (gs.flatMap SNode.allNodes).filter (fun n => n.tag == "path")
      = gs.flatMap SNode.children := by
    induction gs with
    | nil => rfl
    | cons sg rest ih =>
      have hsg := hg sg (by simp)
      have hrest := ih (fun x hx => hg x (List.mem_cons_of_mem _ hx))
      rw [List.flatMap_cons, List.flatMap_cons, List.filter_append, hrest]
      cases sg with
      | mk t a cs =>
        have ht : t = "g" := hsg.1
        subst ht
        rw [allNodes_mk, List.filter_cons]
        have hcs : ∀ pe ∈ cs, pe.tag = "path" ∧ pe.children = [] := hsg.2
        have htag : ((SNode.mk "g" a cs).tag == "path") = false := rfl
        rw [htag]
        simp only [if_false, Bool.false_eq_true]
        rw [allNodes_go_eq, flatMap_allNodes_leaves cs (fun x hx => (hcs x hx).2),
          filter_path_keep cs (fun x hx => (hcs x hx).1)]
        rfl
  rw [hgs]

/-- Every output of the group loop is a `g` element whose children are
childless `path` elements. -/
theorem forall2_group_shapes (cm : ColorMap) (groups : List VNode) (gs : List SNode)
    (h : List.Forall₂ (fun g sg => convert_group cm g = Except.ok sg) groups gs) :
    ∀ sg ∈ gs, sg.tag = "g"
      ∧ ∀ pe ∈ sg.children, pe.tag = "path" ∧ pe.children = [] := by
  intro sg hsg
  obtain ⟨g, _, hok⟩ := forall2_mem_right h sg hsg
  obtain ⟨pelems, rfl, hcp⟩ := convert_group_ok cm g sg hok
  refine ⟨rfl, ?_⟩
  intro pe hpe
  unfold convert_paths at hcp
  have h2 := (mapM_ok_iff _ _ _).mp hcp
  obtain ⟨sp, _, hsp⟩ := forall2_mem_right h2 pe hpe
  exact convert_path_elem_shape cm sp pe hsp

/-- The converted paths of the groups, pointwise. -/
theorem forall2_flatMap_groupPaths (cm : ColorMap) (groups : List VNode)
    (gs : List SNode)
    (h : List.Forall₂ (fun g sg => convert_group cm g = Except.ok sg) groups gs) :
    List.Forall₂ (fun sp op => convert_path_elem cm sp = Except.ok op)
      (groups.flatMap selectedPaths) (gs.flatMap SNode.children) := by
  induction h with
  | nil => exact List.Forall₂.nil
  | cons hgsg htl ih =>
    obtain ⟨pelems, rfl, hcp⟩ := convert_group_ok _ _ _ hgsg
    rw [List.flatMap_cons, List.flatMap_cons]
    unfold convert_paths at hcp
    exact List.rel_append ((mapM_ok_iff _ _ _).mp hcp) ih

/-- Claim C1: in a well-formed source document, a path node is emitted
exactly when its immediate parent is the `vector` root or a group node —
so a path nested under anything else (e.g. a path under a path), however
deep, is silently omitted, while paths directly under the root or directly
under any group are emitted; and on success the emitted output paths are
precisely the conversions of those source paths. -/
theorem c1_only_direct_children_emitted (doc vd q p : VNode) (cm : ColorMap) (vb : Bool)
    (hwf : idsNodup doc) (hvd : firstVector doc = some vd)
    (hqp : (q, p) ∈ descWP doc) (hp : p.tag = "path") :
    (p.nid ∈ (convertedSourcePaths doc).map VNode.nid
      ↔ (q.nid = vd.nid ∨ q.tag = "group"))
    ∧ (∀ out, convert_vector_drawable_xml doc cm vb = Except.ok out →
        List.Forall₂ (fun sp op => convert_path_elem cm sp = Except.ok op)
          (convertedSourcePaths doc) (svgPathsOf out)) := by
  have hvdmem : vd ∈ nodesOf doc := List.mem_of_find?_eq_some hvd
  have hpmem : p ∈ nodesOf doc := (mem_nodesOf doc p).mpr (Or.inr ⟨q, hqp⟩)
  have hcsp : convertedSourcePaths doc
      = (groupsOf doc).flatMap selectedPaths ++ selectedPaths vd := by
    unfold convertedSourcePaths
    rw [hvd]
  constructor
  · rw [hcsp]
    constructor
    · intro hmem
      rw [List.map_append, List.mem_append] at hmem
      rcases hmem with hmem | hmem
      · obtain ⟨x, hx, hxid⟩ := List.mem_map.mp hmem
        obtain ⟨g, hgmem, hxg⟩ := List.mem_flatMap.mp hx
        have hgnodes : g ∈ nodesOf doc := (List.mem_filter.mp hgmem).1
        rw [selectedPaths_eq doc g hwf hgnodes] at hxg
        have hxch : x ∈ g.children := (List.mem_filter.mp hxg).1
        have hgx : (g, x) ∈ descWP doc := descWP_of_nodesOf_child doc g x hgnodes hxch
        have hxnodes : x ∈ nodesOf doc := (mem_nodesOf doc x).mpr (Or.inr ⟨g, hgx⟩)
        have hxp : x = p := nid_inj doc x p hwf hxnodes hpmem hxid
        have hq : q = g := parent_unique doc q g p hwf hqp (hxp ▸ hgx)
        right
        rw [hq]
        exact eq_of_beq (List.mem_filter.mp hgmem).2
      · obtain ⟨x, hx, hxid⟩ := List.mem_map.mp hmem
        rw [selectedPaths_eq doc vd hwf hvdmem] at hx
        have hxch : x ∈ vd.children := (List.mem_filter.mp hx).1
        have hvx : (vd, x) ∈ descWP doc := descWP_of_nodesOf_child doc vd x hvdmem hxch
        have hxnodes : x ∈ nodesOf doc := (mem_nodesOf doc x).mpr (Or.inr ⟨vd, hvx⟩)
        have hxp : x = p := nid_inj doc x p hwf hxnodes hpmem hxid
        have hq : q = vd := parent_unique doc q vd p hwf hqp (hxp ▸ hvx)
        left
        rw [hq]
    · intro hor
      rw [List.map_append, List.mem_append]
      have hqnodes : q ∈ nodesOf doc := parent_mem_nodesOf doc q p hqp
      have hpch : p ∈ q.children := child_of_descWP doc q p hqp
      rcases hor with hqid | hqtag
      · right
        have hq : q = vd := nid_inj doc q vd hwf hqnodes hvdmem hqid
        rw [← hq, selectedPaths_eq doc q hwf hqnodes]
        exact List.mem_map.mpr ⟨p, List.mem_filter.mpr ⟨hpch, by rw [hp]; rfl⟩, rfl⟩
      · left
        have hggrp : q ∈ groupsOf doc :=
          List.mem_filter.mpr ⟨hqnodes, by rw [hqtag]; rfl⟩
        refine List.mem_map.mpr ⟨p, List.mem_flatMap.mpr ⟨q, hggrp, ?_⟩, rfl⟩
        rw [selectedPaths_eq doc q hwf hqnodes]
        exact List.mem_filter.mpr ⟨hpch, by rw [hp]; rfl⟩
  · intro out hok
    obtain ⟨w, h, gs, ps, hw, hh, hgs, hps, rfl⟩ :=
      convert_ok_decomp doc cm vb vd out hvd hok
    have hgsf := (mapM_ok_iff _ _ _).mp hgs
    unfold convert_paths at hps
    have hpsf := (mapM_ok_iff _ _ _).mp hps
    rw [hcsp]
    rw [svgPathsOf_assembled (svgRootAttrs vb w h) gs ps
      (forall2_group_shapes cm (groupsOf doc) gs hgsf)
      (fun op hop => by
        obtain ⟨sp, hspmem, hsp⟩ := forall2_mem_right hpsf op hop
        exact convert_path_elem_shape cm sp op hsp)]
    exact List.rel_append (forall2_flatMap_groupPaths cm (groupsOf doc) gs hgsf) hpsf

/-- Witness for C1: in the example document, the path under the group and
the path under the root are emitted (the parent is a group / is the root),
the path nested two levels deep (under a path) is not, and the successful
conversion's output paths are precisely the conversions of the two emitted
source paths. -/
theorem c1_only_direct_children_emitted_witness :
    idsNodup exDoc
    ∧ firstVector exDoc = some exDoc
    ∧ convert_vector_drawable_xml exDoc [] false = Except.ok exOut
    ∧ (exPathUnderGroup.nid ∈ (convertedSourcePaths exDoc).map VNode.nid
        ↔ (exGroup.nid = exDoc.nid ∨ exGroup.tag = "group"))
    ∧ (exPathNested.nid ∈ (convertedSourcePaths exDoc).map VNode.nid
        ↔ (exPathUnderGroup.nid = exDoc.nid ∨ exPathUnderGroup.tag = "group"))
    ∧ (exPathRoot.nid ∈ (convertedSourcePaths exDoc).map VNode.nid
        ↔ (exDoc.nid = exDoc.nid ∨ exDoc.tag = "group"))
    ∧ exPathUnderGroup.nid ∈ (convertedSourcePaths exDoc).map VNode.nid
    ∧ exPathNested.nid ∉ (convertedSourcePaths exDoc).map VNode.nid
    ∧ exPathRoot.nid ∈ (convertedSourcePaths exDoc).map VNode.nid
    ∧ List.Forall₂ (fun sp op => convert_path_elem [] sp = Except.ok op)
        (convertedSourcePaths exDoc) (svgPathsOf exOut) :=
  ⟨by decide, rfl, rfl,
   (c1_only_direct_children_emitted exDoc exDoc exGroup exPathUnderGroup [] false
     (by decide) rfl (List.Mem.tail _ (List.Mem.head _)) rfl).1,
   (c1_only_direct_children_emitted exDoc exDoc exPathUnderGroup exPathNested [] false
     (by decide) rfl (List.Mem.tail _ (List.Mem.tail _ (List.Mem.head _))) rfl).1,
   (c1_only_direct_children_emitted exDoc exDoc exDoc exPathRoot [] false
     (by decide) rfl
     (List.Mem.tail _ (List.Mem.tail _ (List.Mem.tail _ (List.Mem.head _)))) rfl).1,
   by decide, by decide, by decide,
   (c1_only_direct_children_emitted exDoc exDoc exDoc exPathRoot [] false
     (by decide) rfl
     (List.Mem.tail _ (List.Mem.tail _ (List.Mem.tail _ (List.Mem.head _)))) rfl).2
     exOut rfl⟩
